import Mathlib

/-!
Verification of the option-pricing core: a Cox-Ross-Rubinstein binomial
pricer (`price_option`, from binomial_option.py), a Monte Carlo pricer
(`monte_carlo_price`, from monte_carlo_option.py), and the restricted
payoff-expression evaluator (`parse_payoff_expression`).  Real-valued
floating point arithmetic is modelled by the real numbers; the shared
random source is modelled by an explicit stream of standard-normal draws.
-/

namespace OptionPricing

/-- Error taxonomy of the pricing core.  The Python code raises `ValueError`
with a message naming the offending field; the specification classifies these
as `InvalidInput`, `InvalidSpec` and `InvalidRiskNeutralProbability`. -/
inductive PricingError where
  | invalidInput (field : String)
  | invalidSpec (field : String)
  | invalidRiskNeutralProbability
  deriving DecidableEq, Repr

/-- Option contract specification, from the frozen dataclass `OptionSpec`
in binomial_option.py: kind ("call" or "put"), strike, maturity (years). -/
structure OptionSpec where
  kind : String
  strike : ℝ
  maturity : ℝ

/-- Construction of an `OptionSpec`, embedding `OptionSpec.__post_init__`:
kind must be "call" or "put", strike and maturity must be positive; the
checks run in that order and a failure names the offending field. -/
noncomputable def OptionSpec.make (kind : String) (strike maturity : ℝ) :
    Except PricingError OptionSpec :=
  if ¬ (kind = "call" ∨ kind = "put") then .error (.invalidSpec "kind")
  else if strike ≤ 0 then .error (.invalidSpec "strike")
  else if maturity ≤ 0 then .error (.invalidSpec "maturity")
  else .ok ⟨kind, strike, maturity⟩

/-- The invariant of a successfully constructed `OptionSpec`. -/
def OptionSpec.Valid (o : OptionSpec) : Prop :=
  (o.kind = "call" ∨ o.kind = "put") ∧ 0 < o.strike ∧ 0 < o.maturity

/-- Time step of the lattice, from `dt = option.maturity / steps`. -/
noncomputable def crrDt (option : OptionSpec) (steps : ℕ) : ℝ :=
  option.maturity / (steps : ℝ)

/-- Up factor, from `u = math.exp(volatility * math.sqrt(dt))`. -/
noncomputable def crrU (option : OptionSpec) (volatility : ℝ) (steps : ℕ) : ℝ :=
  Real.exp (volatility * Real.sqrt (crrDt option steps))

/-- Down factor, from `d = 1 / u`. -/
noncomputable def crrD (option : OptionSpec) (volatility : ℝ) (steps : ℕ) : ℝ :=
  1 / crrU option volatility steps

/-- Per-step discount factor, from `disc = math.exp(-rate * dt)`. -/
noncomputable def crrDisc (option : OptionSpec) (rate : ℝ) (steps : ℕ) : ℝ :=
  Real.exp (-(rate * crrDt option steps))

/-- Risk-neutral up-probability, from `p = (math.exp(rate * dt) - d) / (u - d)`. -/
noncomputable def riskNeutralProb (option : OptionSpec) (rate volatility : ℝ) (steps : ℕ) : ℝ :=
  (Real.exp (rate * crrDt option steps) - crrD option volatility steps) /
    (crrU option volatility steps - crrD option volatility steps)

/-- Terminal underlying prices of the recombining lattice, from the list
comprehension `[spot * (u ** j) * (d ** (steps - j)) for j in range(steps + 1)]`. -/
noncomputable def terminalPrices (spot u d : ℝ) (steps : ℕ) : List ℝ :=
  (List.range (steps + 1)).map (fun j => spot * u ^ j * d ^ (steps - j))

/-- Terminal payoffs, from the two list comprehensions guarded by
`option.kind == "call"` in `price_option`. -/
noncomputable def terminalPayoffs (option : OptionSpec) (prices : List ℝ) : List ℝ :=
  if option.kind = "call" then prices.map (fun price => max (price - option.strike) 0)
  else prices.map (fun price => max (option.strike - price) 0)

/-- One round of backward induction, from the body of the Python loop
`payoffs = [disc * (p * payoffs[j + 1] + (1 - p) * payoffs[j]) for j in range(step + 1)]`;
at each round the Python loop variable satisfies `step + 1 = len(payoffs) - 1`. -/
noncomputable def inductStep (disc p : ℝ) (v : List ℝ) : List ℝ :=
  (List.range (v.length - 1)).map
    (fun j => disc * (p * v.getD (j + 1) 0 + (1 - p) * v.getD j 0))

/-- The backward-induction loop `for step in range(steps - 1, -1, -1)`:
`inductStep` applied `steps` times. -/
noncomputable def backward (disc p : ℝ) : ℕ → List ℝ → List ℝ
  | 0, v => v
  | n + 1, v => backward disc p n (inductStep disc p v)

/-- Embedding of `price_option(spot, option, rate, volatility, steps)` from
binomial_option.py: validation, CRR parameters, risk-neutral probability
check, terminal lattice, backward induction, and the single remaining value. -/
noncomputable def price_option (spot : ℝ) (option : OptionSpec) (rate volatility : ℝ)
    (steps : ℕ) : Except PricingError ℝ :=
  if spot ≤ 0 then .error (.invalidInput "spot")
  else if volatility ≤ 0 then .error (.invalidInput "volatility")
  else if steps = 0 then .error (.invalidInput "steps")
  else
    let u := crrU option volatility steps
    let d := crrD option volatility steps
    let disc := crrDisc option rate steps
    let p := riskNeutralProb option rate volatility steps
    if ¬ (0 ≤ p ∧ p ≤ 1) then .error .invalidRiskNeutralProbability
    else .ok ((backward disc p steps
      (terminalPayoffs option (terminalPrices spot u d steps))).headD 0)

/-- Reference node value from the specification text: the value of a lattice
node with `s` remaining steps and `j` up-moves so far is the terminal payoff
when `s = 0` and otherwise `disc * (p * value[j+1] + (1 - p) * value[j])`
one step later. -/
noncomputable def crrNodeValue (disc p : ℝ) (payoff : ℕ → ℝ) : ℕ → ℕ → ℝ
  | 0, j => payoff j
  | s + 1, j =>
      disc * (p * crrNodeValue disc p payoff s (j + 1) + (1 - p) * crrNodeValue disc p payoff s j)

/-- Reference CRR price assembled from the specification text: with
`dt = maturity/steps`, `u = exp(volatility*sqrt(dt))`, `d = 1/u`,
`disc = exp(-rate*dt)`, `p = (exp(rate*dt) - d)/(u - d)`, terminal payoff
`max(spot*u^j*d^(steps-j) - strike, 0)` for a call and the mirrored form for
a put, the price is the root value after `steps` rounds of backward induction. -/
noncomputable def crrReferencePrice (spot : ℝ) (option : OptionSpec) (rate volatility : ℝ)
    (steps : ℕ) : ℝ :=
  let u := crrU option volatility steps
  let d := crrD option volatility steps
  let disc := crrDisc option rate steps
  let p := riskNeutralProb option rate volatility steps
  crrNodeValue disc p
    (fun j =>
      if option.kind = "call" then max (spot * u ^ j * d ^ (steps - j) - option.strike) 0
      else max (option.strike - spot * u ^ j * d ^ (steps - j)) 0)
    steps 0

/-! ### Monte Carlo pricer (monte_carlo_option.py) -/

/-- The process-wide random source, modelled as the stream of upcoming
standard-normal draws returned by successive calls to `random.gauss(0, 1)`. -/
def RngState : Type := ℕ → ℝ

/-- The stream after `n` draws have been consumed. -/
def RngState.shift (g : RngState) (n : ℕ) : RngState := fun k => g (n + k)

/-- Seeding, from the guard
`if seed is not None: random.seed(seed)`: the seeded stream replaces the
current one; with no seed the pre-existing stream is used. `seedFn` is the
(unspecified) deterministic map from a seed to the stream of normal draws
the seeded standard-library generator will produce. -/
def initStream (seedFn : ℤ → RngState) (seed : Option ℤ) (g : RngState) : RngState :=
  match seed with
  | some s => seedFn s
  | none => g

/-- The inner simulation loop of `monte_carlo_price`: perform `n` updates
`price *= exp(drift + diffusion * z)` with one fresh draw `z` each, appending
each updated price to the path; returns the finished path and the advanced
random source. -/
noncomputable def simSteps (drift diffusion : ℝ) :
    ℕ → ℝ → List ℝ → RngState → List ℝ × RngState
  | 0, _, path, g => (path, g)
  | n + 1, price, path, g =>
      let z := g 0
      let price2 := price * Real.exp (drift + diffusion * z)
      simSteps drift diffusion n price2 (path ++ [price2]) (g.shift 1)

/-- The outer trials loop of `monte_carlo_price`: each trial starts a fresh
path at `spot`, simulates `steps` updates, and accumulates the payoff of the
finished path. -/
noncomputable def simPaths (spot drift diffusion : ℝ) (steps : ℕ)
    (payoff : List ℝ → ℝ) : ℕ → ℝ → RngState → ℝ × RngState
  | 0, acc, g => (acc, g)
  | n + 1, acc, g =>
      let r := simSteps drift diffusion steps spot [spot] g
      simPaths spot drift diffusion steps payoff n (acc + payoff r.1) r.2

/-- Embedding of `monte_carlo_price(spot, rate, volatility, maturity, steps, paths, payoff, seed)`
from monte_carlo_option.py: validation in source order, optional seeding of the
shared random source, GBM parameters, the simulation loops, and the discounted
average.  The shared random source is passed in and the advanced source is
returned alongside the result; a validation failure returns it untouched. -/
noncomputable def monte_carlo_price (seedFn : ℤ → RngState)
    (spot rate volatility maturity : ℝ) (steps paths : ℕ)
    (payoff : List ℝ → ℝ) (seed : Option ℤ) (g : RngState) :
    Except PricingError ℝ × RngState :=
  if spot ≤ 0 then (.error (.invalidInput "spot"), g)
  else if volatility ≤ 0 then (.error (.invalidInput "volatility"), g)
  else if maturity ≤ 0 then (.error (.invalidInput "maturity"), g)
  else if steps = 0 then (.error (.invalidInput "steps"), g)
  else if paths = 0 then (.error (.invalidInput "paths"), g)
  else
    let g0 := initStream seedFn seed g
    let dt := maturity / (steps : ℝ)
    let drift := (rate - 0.5 * volatility ^ 2) * dt
    let diffusion := volatility * Real.sqrt dt
    let discount := Real.exp (-(rate * maturity))
    let r := simPaths spot drift diffusion steps payoff paths 0 g0
    (.ok (discount * (r.1 / (paths : ℝ))), r.2)

/-- Cumulative GBM growth factor over the first `k` steps of a draw stream. -/
noncomputable def gbmGrowth (drift diffusion : ℝ) (z : RngState) (k : ℕ) : ℝ :=
  ∏ t ∈ Finset.range k, Real.exp (drift + diffusion * z t)

/-- Reference simulated path from the specification text: the path starts at
`spot` and its entry after `k` of the `steps` multiplicative updates is
`spot` times the product of the first `k` growth factors; length `steps + 1`. -/
noncomputable def specPath (spot drift diffusion : ℝ) (steps : ℕ) (z : RngState) : List ℝ :=
  (List.range (steps + 1)).map (fun k => spot * gbmGrowth drift diffusion z k)

/-- The Monte Carlo estimate as a function of the post-seeding draw stream
alone: trial `i` consumes the draws at positions `i*steps, ..., i*steps + steps - 1`. -/
noncomputable def mcEstimate (spot rate volatility maturity : ℝ) (steps paths : ℕ)
    (payoff : List ℝ → ℝ) (g0 : RngState) : ℝ :=
  Real.exp (-(rate * maturity)) *
    ((simPaths spot ((rate - 0.5 * volatility ^ 2) * (maturity / (steps : ℝ)))
        (volatility * Real.sqrt (maturity / (steps : ℝ))) steps payoff paths 0 g0).1
      / (paths : ℝ))

/-- Names a nonpositive `monte_carlo_price` argument. -/
def mcFieldOffends (f : String) (spot volatility maturity : ℝ) (steps paths : ℕ) : Prop :=
  (f = "spot" ∧ spot ≤ 0) ∨ (f = "volatility" ∧ volatility ≤ 0) ∨
    (f = "maturity" ∧ maturity ≤ 0) ∨ (f = "steps" ∧ steps = 0) ∨ (f = "paths" ∧ paths = 0)

/-! ### Payoff expression evaluator (parse_payoff_expression) -/

/-- The callable objects reachable inside the evaluation namespace of
`parse_payoff_expression`: the built-ins `max`, `min`, `abs` passed in the
locals mapping, and functions of the `math` module reached through it. -/
inductive PyFun where
  | pymax
  | pymin
  | pyabs
  | mathExp
  | mathSqrt
  | mathLog
  deriving DecidableEq

/-- Runtime values of the evaluation: numbers, the price path (a sequence),
the `math` module object, callables, and the empty dict bound to
`__builtins__` in the globals mapping. -/
inductive PyVal where
  | num (x : ℝ)
  | seq (xs : List ℝ)
  | mathModule
  | fn (f : PyFun)
  | emptyDict

/-- A fragment of the abstract syntax accepted by
`compile(expression, "<payoff>", "eval")`: literals, names, attribute
access, calls, arithmetic and indexing.  The real eval-mode grammar is
larger (comparisons, conditionals, lambdas, comprehensions, assignment
expressions); every expression of this fragment is accepted by the
source, so the fragment suffices to exhibit concrete accepted inputs and
their evaluations. -/
inductive PyExpr where
  | lit (x : ℝ)
  | name (s : String)
  | attr (e : PyExpr) (field : String)
  | call (f : PyExpr) (args : List PyExpr)
  | add (a b : PyExpr)
  | sub (a b : PyExpr)
  | mul (a b : PyExpr)
  | div (a b : PyExpr)
  | neg (a : PyExpr)
  | subscript (e : PyExpr) (i : ℤ)

/-- Name resolution during `eval(code, {"__builtins__": {}}, {...})`: the
locals mapping binds exactly `path`, `S` (the last element of the path),
`math`, `max`, `min` and `abs`; after the locals, the globals mapping is
consulted, where `__builtins__` is bound to the empty dict, so that name
resolves too; every remaining name fails with `NameError` because the
builtins mapping is empty. -/
noncomputable def lookupName (path : List ℝ) (s : String) : Option PyVal :=
  if s = "path" then some (.seq path)
  else if s = "S" then some (.num (path.getLast?.getD 0))
  else if s = "math" then some .mathModule
  else if s = "max" then some (.fn .pymax)
  else if s = "min" then some (.fn .pymin)
  else if s = "abs" then some (.fn .pyabs)
  else if s = "__builtins__" then some .emptyDict
  else none

/-- Attribute access on a value, an under-approximating fragment of
CPython's attribute semantics: the `math` module object exposes its
elementary functions and constants, and a float exposes `real`.  Real eval
resolves many further attributes not modelled here (list and dict methods,
dunder chains such as `__class__`); the fragment only returns results that
real eval also returns, so a successful lookup here is a successful lookup
in the source. -/
noncomputable def attrLookup (v : PyVal) (field : String) : Option PyVal :=
  match v with
  | .mathModule =>
      if field = "exp" then some (.fn .mathExp)
      else if field = "sqrt" then some (.fn .mathSqrt)
      else if field = "log" then some (.fn .mathLog)
      else if field = "pi" then some (.num Real.pi)
      else if field = "e" then some (.num (Real.exp 1))
      else none
  | .num x => if field = "real" then some (.num x) else none
  | _ => none

/-- Application of a reachable callable to evaluated arguments; a reducer
applied to the path takes its extremum, and any ill-typed application
raises (modelled as `none`). -/
noncomputable def applyFn (f : PyFun) (args : List PyVal) : Option PyVal :=
  match f, args with
  | .mathExp, [.num x] => some (.num (Real.exp x))
  | .mathSqrt, [.num x] => some (.num (Real.sqrt x))
  | .mathLog, [.num x] => some (.num (Real.log x))
  | .pyabs, [.num x] => some (.num |x|)
  | .pymax, [.num a, .num b] => some (.num (max a b))
  | .pymin, [.num a, .num b] => some (.num (min a b))
  | .pymax, [.seq (x :: xs)] => some (.num (xs.foldl max x))
  | .pymin, [.seq (x :: xs)] => some (.num (xs.foldl min x))
  | _, _ => none

mutual

/-- Evaluation of a payoff expression against a price path, in the namespace
built by the `payoff` closure of `parse_payoff_expression`; `none` covers a
raised exception (undefined name, division by zero, type error) and the
attribute accesses outside the modelled fragment, so a `some` result is a
result the source also produces. -/
noncomputable def evalPy (path : List ℝ) : PyExpr → Option PyVal
  | .lit x => some (.num x)
  | .name s => lookupName path s
  | .attr e field =>
      match evalPy path e with
      | some v => attrLookup v field
      | none => none
  | .call f args =>
      match evalPy path f with
      | some (.fn fn) =>
          match evalArgs path args with
          | some vs => applyFn fn vs
          | none => none
      | _ => none
  | .add a b =>
      match evalPy path a, evalPy path b with
      | some (.num x), some (.num y) => some (.num (x + y))
      | _, _ => none
  | .sub a b =>
      match evalPy path a, evalPy path b with
      | some (.num x), some (.num y) => some (.num (x - y))
      | _, _ => none
  | .mul a b =>
      match evalPy path a, evalPy path b with
      | some (.num x), some (.num y) => some (.num (x * y))
      | _, _ => none
  | .div a b =>
      match evalPy path a, evalPy path b with
      | some (.num x), some (.num y) => if y = 0 then none else some (.num (x / y))
      | _, _ => none
  | .neg a =>
      match evalPy path a with
      | some (.num x) => some (.num (-x))
      | _ => none
  | .subscript e i =>
      match evalPy path e with
      | some (.seq xs) =>
          let idx := if i < 0 then i + xs.length else i
          if 0 ≤ idx ∧ idx < xs.length then some (.num (xs.getD idx.toNat 0)) else none
      | _ => none

/-- Left-to-right evaluation of the argument list of a call. -/
noncomputable def evalArgs (path : List ℝ) : List PyExpr → Option (List PyVal)
  | [] => some []
  | e :: es =>
      match evalPy path e, evalArgs path es with
      | some v, some vs => some (v :: vs)
      | _, _ => none

end

mutual

/-- Whether an expression contains an attribute-access node. -/
def hasAttrAccess : PyExpr → Bool
  | .lit _ => false
  | .name _ => false
  | .attr _ _ => true
  | .call f args => hasAttrAccess f || hasAttrAccessList args
  | .add a b => hasAttrAccess a || hasAttrAccess b
  | .sub a b => hasAttrAccess a || hasAttrAccess b
  | .mul a b => hasAttrAccess a || hasAttrAccess b
  | .div a b => hasAttrAccess a || hasAttrAccess b
  | .neg a => hasAttrAccess a
  | .subscript e _ => hasAttrAccess e

/-- Whether any expression of a list contains an attribute-access node. -/
def hasAttrAccessList : List PyExpr → Bool
  | [] => false
  | e :: es => hasAttrAccess e || hasAttrAccessList es

end

/-- The payoff function returned by `parse_payoff_expression`: evaluate the
compiled expression against the path in the restricted namespace and convert
the result with `float(...)`; `none` models a raised exception (the namespace
construction itself indexes `path[-1]`, so an empty path raises). -/
noncomputable def parse_payoff_expression (e : PyExpr) (path : List ℝ) : Option ℝ :=
  if path.isEmpty then none
  else
    match evalPy path e with
    | some (.num x) => some x
    | _ => none

/-! ### Helper lemmas: backward induction refines the reference recursion -/

lemma getD_range_map (f : ℕ → ℝ) {n j : ℕ} (h : j < n) :
    ((List.range n).map f).getD j 0 = f j := by
  have hl : j < ((List.range n).map f).length := by simpa using h
  rw [List.getD_eq_getElem _ _ hl]
  simp

lemma inductStep_range_map (disc p : ℝ) (f : ℕ → ℝ) (m : ℕ) :
    inductStep disc p ((List.range (m + 1)).map f) =
      (List.range m).map (fun j => disc * (p * f (j + 1) + (1 - p) * f j)) := by
  unfold inductStep
  rw [List.length_map, List.length_range, Nat.add_sub_cancel]
  apply List.map_congr_left
  intro j hj
  rw [List.mem_range] at hj
  rw [getD_range_map f (Nat.succ_lt_succ hj), getD_range_map f (Nat.lt_succ_of_lt hj)]

lemma crrNodeValue_step (disc p : ℝ) (f : ℕ → ℝ) (s j : ℕ) :
    crrNodeValue disc p (fun i => disc * (p * f (i + 1) + (1 - p) * f i)) s j =
      crrNodeValue disc p f (s + 1) j := by
  induction s generalizing j with
  | zero => rfl
  | succ n ih => simp only [crrNodeValue, ih]

lemma backward_range_map (disc p : ℝ) (f : ℕ → ℝ) (n : ℕ) :
    backward disc p n ((List.range (n + 1)).map f) = [crrNodeValue disc p f n 0] := by
  induction n generalizing f with
  | zero => simp [backward, List.range_succ, crrNodeValue]
  | succ n ih =>
      show backward disc p n (inductStep disc p ((List.range (n + 1 + 1)).map f)) = _
      rw [inductStep_range_map, ih, crrNodeValue_step]

lemma terminalPayoffs_terminalPrices (option : OptionSpec) (spot u d : ℝ) (steps : ℕ) :
    terminalPayoffs option (terminalPrices spot u d steps) =
      (List.range (steps + 1)).map
        (fun j =>
          if option.kind = "call" then max (spot * u ^ j * d ^ (steps - j) - option.strike) 0
          else max (option.strike - spot * u ^ j * d ^ (steps - j)) 0) := by
  by_cases h : option.kind = "call" <;>
    simp [terminalPayoffs, terminalPrices, h, List.map_map, Function.comp]

/-- Successful run of `price_option`: on accepted inputs the code returns the
reference value. -/
lemma price_option_ok_of_accepted (spot : ℝ) (option : OptionSpec) (rate volatility : ℝ)
    (steps : ℕ) (hs : 0 < spot) (hv : 0 < volatility) (hn : steps ≠ 0)
    (hp : 0 ≤ riskNeutralProb option rate volatility steps ∧
      riskNeutralProb option rate volatility steps ≤ 1) :
    price_option spot option rate volatility steps =
      .ok (crrReferencePrice spot option rate volatility steps) := by
  unfold price_option crrReferencePrice
  rw [if_neg (not_le.mpr hs), if_neg (not_le.mpr hv), if_neg hn, if_neg (not_not_intro hp)]
  rw [terminalPayoffs_terminalPrices, backward_range_map]
  rfl

/-! ### C8: OptionSpec construction -/

/-- C8: constructing an `OptionSpec` either fails with an `InvalidSpec` error
naming an offending field (non-call/put kind, nonpositive strike, nonpositive
maturity), or returns exactly the requested instance, which satisfies the
invariant kind ∈ {call, put}, strike > 0, maturity > 0; no other outcome is
possible. -/
theorem optionSpec_make_valid_or_invalidSpec (kind : String) (strike maturity : ℝ) :
    (∃ f, OptionSpec.make kind strike maturity = .error (.invalidSpec f) ∧
      ((f = "kind" ∧ ¬(kind = "call" ∨ kind = "put")) ∨
        (f = "strike" ∧ strike ≤ 0) ∨ (f = "maturity" ∧ maturity ≤ 0))) ∨
    (OptionSpec.make kind strike maturity = .ok ⟨kind, strike, maturity⟩ ∧
      OptionSpec.Valid ⟨kind, strike, maturity⟩) := by
  unfold OptionSpec.make
  by_cases h1 : ¬(kind = "call" ∨ kind = "put")
  · exact Or.inl ⟨"kind", by rw [if_pos h1], Or.inl ⟨rfl, h1⟩⟩
  · rw [if_neg h1]
    by_cases h2 : strike ≤ 0
    · exact Or.inl ⟨"strike", by rw [if_pos h2], Or.inr (Or.inl ⟨rfl, h2⟩)⟩
    · rw [if_neg h2]
      by_cases h3 : maturity ≤ 0
      · exact Or.inl ⟨"maturity", by rw [if_pos h3], Or.inr (Or.inr ⟨rfl, h3⟩)⟩
      · rw [if_neg h3]
        exact Or.inr ⟨rfl, not_not.mp h1, not_le.mp h2, not_le.mp h3⟩

/-! ### C1: price_option matches the CRR reference -/

/-- C1: on every accepted input (positive spot and volatility, positive step
count, valid contract, risk-neutral probability inside the unit interval),
`price_option` returns exactly the reference CRR value obtained from the
terminal payoffs by `steps` rounds of backward induction, and after the
rounds exactly one lattice value remains. -/
theorem price_option_eq_crr_reference (spot : ℝ) (option : OptionSpec)
    (rate volatility : ℝ) (steps : ℕ) (hs : 0 < spot) (hv : 0 < volatility)
    (hn : steps ≠ 0) (_hov : option.Valid)
    (hp : 0 ≤ riskNeutralProb option rate volatility steps ∧
      riskNeutralProb option rate volatility steps ≤ 1) :
    price_option spot option rate volatility steps =
      .ok (crrReferencePrice spot option rate volatility steps) ∧
    (backward (crrDisc option rate steps) (riskNeutralProb option rate volatility steps) steps
      (terminalPayoffs option
        (terminalPrices spot (crrU option volatility steps) (crrD option volatility steps)
          steps))).length = 1 := by
  constructor
  · exact price_option_ok_of_accepted spot option rate volatility steps hs hv hn hp
  · rw [terminalPayoffs_terminalPrices, backward_range_map]
    rfl

/-- The risk-neutral probability lies in the unit interval at the concrete
input used by the witnesses (at-the-money call, zero rate, unit volatility,
one step). -/
lemma witness_p_bounds :
    0 ≤ riskNeutralProb ⟨"call", 1, 1⟩ 0 1 1 ∧ riskNeutralProb ⟨"call", 1, 1⟩ 0 1 1 ≤ 1 := by
  have h1 : (1 : ℝ) < Real.exp 1 := Real.one_lt_exp_iff.mpr one_pos
  have hepos : (0 : ℝ) < Real.exp 1 := lt_trans one_pos h1
  have hdlt : 1 / Real.exp 1 < 1 := by rw [div_lt_one hepos]; exact h1
  have hdpos : 0 < 1 / Real.exp 1 := by positivity
  have hp : riskNeutralProb ⟨"call", 1, 1⟩ 0 1 1 =
      (1 - 1 / Real.exp 1) / (Real.exp 1 - 1 / Real.exp 1) := by
    simp [riskNeutralProb, crrU, crrD, crrDt]
  constructor
  · rw [hp]
    exact div_nonneg (by linarith) (by linarith)
  · rw [hp]
    rw [div_le_one (by linarith)]
    linarith

/-- Witness for C1 at spot 1, at-the-money one-year call, zero rate, unit
volatility, one step. -/
theorem price_option_eq_crr_reference_witness :
    (0 : ℝ) < 1 ∧
    price_option 1 ⟨"call", 1, 1⟩ 0 1 1 = .ok (crrReferencePrice 1 ⟨"call", 1, 1⟩ 0 1 1) :=
  ⟨one_pos,
    (price_option_eq_crr_reference 1 ⟨"call", 1, 1⟩ 0 1 1 one_pos one_pos one_ne_zero
      ⟨Or.inl rfl, one_pos, one_pos⟩ witness_p_bounds).1⟩

/-! ### C4: the risk-neutral probability check -/

/-- C4: with positive spot, positive volatility and a positive step count,
`price_option` fails with `InvalidRiskNeutralProbability` exactly when the
computed risk-neutral probability falls outside the unit interval. -/
theorem price_option_invalid_prob_iff (spot : ℝ) (option : OptionSpec)
    (rate volatility : ℝ) (steps : ℕ) (hs : 0 < spot) (hv : 0 < volatility)
    (hn : steps ≠ 0) :
    price_option spot option rate volatility steps = .error .invalidRiskNeutralProbability ↔
      ¬(0 ≤ riskNeutralProb option rate volatility steps ∧
        riskNeutralProb option rate volatility steps ≤ 1) := by
  unfold price_option
  rw [if_neg (not_le.mpr hs), if_neg (not_le.mpr hv), if_neg hn]
  by_cases hp : 0 ≤ riskNeutralProb option rate volatility steps ∧
      riskNeutralProb option rate volatility steps ≤ 1
  · rw [if_neg (not_not_intro hp)]
    simp [hp]
  · rw [if_pos hp]
    simp [hp]

/-- Witness for C4. -/
theorem price_option_invalid_prob_iff_witness :
    (0 : ℝ) < 1 ∧
    (price_option 1 ⟨"put", 1, 1⟩ 0 1 1 = .error .invalidRiskNeutralProbability ↔
      ¬(0 ≤ riskNeutralProb ⟨"put", 1, 1⟩ 0 1 1 ∧ riskNeutralProb ⟨"put", 1, 1⟩ 0 1 1 ≤ 1)) :=
  ⟨one_pos, price_option_invalid_prob_iff 1 ⟨"put", 1, 1⟩ 0 1 1 one_pos one_pos one_ne_zero⟩

/-! ### C6: nonnegativity of the binomial price -/

lemma crrNodeValue_nonneg (disc p : ℝ) (f : ℕ → ℝ) (hd : 0 ≤ disc) (hp0 : 0 ≤ p)
    (hp1 : p ≤ 1) (hf : ∀ j, 0 ≤ f j) : ∀ s j, 0 ≤ crrNodeValue disc p f s j := by
  intro s
  induction s with
  | zero => intro j; exact hf j
  | succ n ih =>
      intro j
      have h1 := ih (j + 1)
      have h2 := ih j
      have hsum : 0 ≤ p * crrNodeValue disc p f n (j + 1) +
          (1 - p) * crrNodeValue disc p f n j :=
        add_nonneg (mul_nonneg hp0 h1) (mul_nonneg (by linarith) h2)
      exact mul_nonneg hd hsum

lemma crrReferencePrice_nonneg (spot : ℝ) (option : OptionSpec) (rate volatility : ℝ)
    (steps : ℕ)
    (hp : 0 ≤ riskNeutralProb option rate volatility steps ∧
      riskNeutralProb option rate volatility steps ≤ 1) :
    0 ≤ crrReferencePrice spot option rate volatility steps := by
  simp only [crrReferencePrice]
  apply crrNodeValue_nonneg _ _ _ (Real.exp_pos _).le hp.1 hp.2
  intro j
  by_cases h : option.kind = "call" <;> simp [h, le_max_right]

/-- C6: on every accepted input, the price returned by `price_option` is
non-negative, for calls and puts alike. -/
theorem price_option_nonneg (spot : ℝ) (option : OptionSpec) (rate volatility : ℝ)
    (steps : ℕ) (hs : 0 < spot) (hv : 0 < volatility) (hn : steps ≠ 0)
    (_hov : option.Valid)
    (hp : 0 ≤ riskNeutralProb option rate volatility steps ∧
      riskNeutralProb option rate volatility steps ≤ 1) :
    ∃ v, price_option spot option rate volatility steps = .ok v ∧ 0 ≤ v :=
  ⟨crrReferencePrice spot option rate volatility steps,
    price_option_ok_of_accepted spot option rate volatility steps hs hv hn hp,
    crrReferencePrice_nonneg spot option rate volatility steps hp⟩

/-- Witness for C6. -/
theorem price_option_nonneg_witness :
    (0 : ℝ) < 1 ∧ ∃ v, price_option 1 ⟨"call", 1, 1⟩ 0 1 1 = .ok v ∧ 0 ≤ v :=
  ⟨one_pos,
    price_option_nonneg 1 ⟨"call", 1, 1⟩ 0 1 1 one_pos one_pos one_ne_zero
      ⟨Or.inl rfl, one_pos, one_pos⟩ witness_p_bounds⟩

/-! ### C9: a call is worth at most the spot price -/

lemma crrDt_pos (option : OptionSpec) (steps : ℕ) (hm : 0 < option.maturity)
    (hn : steps ≠ 0) : 0 < crrDt option steps := by
  apply div_pos hm
  exact_mod_cast Nat.pos_of_ne_zero hn

lemma one_lt_crrU (option : OptionSpec) (volatility : ℝ) (steps : ℕ)
    (hv : 0 < volatility) (hm : 0 < option.maturity) (hn : steps ≠ 0) :
    1 < crrU option volatility steps := by
  rw [crrU]
  apply Real.one_lt_exp_iff.mpr
  exact mul_pos hv (Real.sqrt_pos.mpr (crrDt_pos option steps hm hn))

lemma crrU_pos (option : OptionSpec) (volatility : ℝ) (steps : ℕ) :
    0 < crrU option volatility steps := Real.exp_pos _

lemma crrD_pos (option : OptionSpec) (volatility : ℝ) (steps : ℕ) :
    0 < crrD option volatility steps := by
  rw [crrD]
  exact div_pos one_pos (crrU_pos option volatility steps)

lemma crrD_lt_one (option : OptionSpec) (volatility : ℝ) (steps : ℕ)
    (hv : 0 < volatility) (hm : 0 < option.maturity) (hn : steps ≠ 0) :
    crrD option volatility steps < 1 := by
  rw [crrD, div_lt_one (crrU_pos option volatility steps)]
  exact one_lt_crrU option volatility steps hv hm hn

lemma martingale_core (a u d : ℝ) (hne : u - d ≠ 0) :
    ((a - d) / (u - d)) * u + (1 - (a - d) / (u - d)) * d = a := by
  field_simp
  ring

/-- The one-step discounted risk-neutral expectation of the underlying is the
identity: `disc * (p*u + (1-p)*d) = 1`. -/
lemma crr_martingale (option : OptionSpec) (rate volatility : ℝ) (steps : ℕ)
    (hv : 0 < volatility) (hm : 0 < option.maturity) (hn : steps ≠ 0) :
    crrDisc option rate steps *
      (riskNeutralProb option rate volatility steps * crrU option volatility steps +
        (1 - riskNeutralProb option rate volatility steps) * crrD option volatility steps) = 1 := by
  have hlt : crrD option volatility steps < crrU option volatility steps :=
    lt_trans (crrD_lt_one option volatility steps hv hm hn)
      (one_lt_crrU option volatility steps hv hm hn)
  have hne : crrU option volatility steps - crrD option volatility steps ≠ 0 :=
    sub_ne_zero.mpr (ne_of_gt hlt)
  simp only [riskNeutralProb]
  rw [martingale_core _ _ _ hne, crrDisc, ← Real.exp_add]
  simp

lemma crrNodeValue_le_mul_pow (disc p u d spot strike : ℝ) (steps : ℕ)
    (hmart : disc * (p * u + (1 - p) * d) = 1)
    (hdisc : 0 ≤ disc) (hp0 : 0 ≤ p) (hp1 : p ≤ 1)
    (hu : 0 < u) (hd : 0 < d) (hspot : 0 ≤ spot) (hK : 0 ≤ strike) :
    ∀ s m j, s + m = steps → j ≤ m →
      crrNodeValue disc p (fun i => max (spot * u ^ i * d ^ (steps - i) - strike) 0) s j ≤
        spot * u ^ j * d ^ (m - j) := by
  intro s
  induction s with
  | zero =>
      intro m j hsm hj
      have hms : m = steps := by omega
      subst hms
      show max (spot * u ^ j * d ^ (m - j) - strike) 0 ≤ spot * u ^ j * d ^ (m - j)
      apply max_le (sub_le_self _ hK)
      exact mul_nonneg (mul_nonneg hspot (pow_nonneg hu.le j)) (pow_nonneg hd.le _)
  | succ s ih =>
      intro m j hsm hj
      have h1 := ih (m + 1) (j + 1) (by omega) (by omega)
      have h2 := ih (m + 1) j (by omega) (by omega)
      have e1 : m + 1 - (j + 1) = m - j := by omega
      have e2 : m + 1 - j = (m - j) + 1 := by omega
      rw [e1] at h1
      rw [e2] at h2
      have hrec : crrNodeValue disc p
          (fun i => max (spot * u ^ i * d ^ (steps - i) - strike) 0) (s + 1) j =
          disc * (p * crrNodeValue disc p
              (fun i => max (spot * u ^ i * d ^ (steps - i) - strike) 0) s (j + 1) +
            (1 - p) * crrNodeValue disc p
              (fun i => max (spot * u ^ i * d ^ (steps - i) - strike) 0) s j) := rfl
      rw [hrec]
      have hb : disc * (p * (spot * u ^ (j + 1) * d ^ (m - j)) +
          (1 - p) * (spot * u ^ j * d ^ ((m - j) + 1))) = spot * u ^ j * d ^ (m - j) := by
        have hexp : p * (spot * u ^ (j + 1) * d ^ (m - j)) +
            (1 - p) * (spot * u ^ j * d ^ ((m - j) + 1)) =
            (spot * u ^ j * d ^ (m - j)) * (p * u + (1 - p) * d) := by
          rw [pow_succ, pow_succ]
          ring
        rw [hexp, mul_left_comm, hmart, mul_one]
      calc disc * (p * crrNodeValue disc p
              (fun i => max (spot * u ^ i * d ^ (steps - i) - strike) 0) s (j + 1) +
            (1 - p) * crrNodeValue disc p
              (fun i => max (spot * u ^ i * d ^ (steps - i) - strike) 0) s j)
          ≤ disc * (p * (spot * u ^ (j + 1) * d ^ (m - j)) +
              (1 - p) * (spot * u ^ j * d ^ ((m - j) + 1))) := by
            apply mul_le_mul_of_nonneg_left _ hdisc
            exact add_le_add (mul_le_mul_of_nonneg_left h1 hp0)
              (mul_le_mul_of_nonneg_left h2 (by linarith))
        _ = spot * u ^ j * d ^ (m - j) := hb

lemma crrReferencePrice_call (spot : ℝ) (option : OptionSpec) (rate volatility : ℝ)
    (steps : ℕ) (hkind : option.kind = "call") :
    crrReferencePrice spot option rate volatility steps =
      crrNodeValue (crrDisc option rate steps) (riskNeutralProb option rate volatility steps)
        (fun i => max (spot * crrU option volatility steps ^ i *
          crrD option volatility steps ^ (steps - i) - option.strike) 0) steps 0 := by
  simp only [crrReferencePrice, hkind, if_pos]

/-- C9: on every accepted input pricing a call, the discounted one-step
expectation `disc * (p*u + (1-p)*d)` equals `1`, and the returned price is at
most the spot price. -/
theorem price_option_call_le_spot (spot : ℝ) (option : OptionSpec) (rate volatility : ℝ)
    (steps : ℕ) (hs : 0 < spot) (hv : 0 < volatility) (hn : steps ≠ 0)
    (hov : option.Valid) (hkind : option.kind = "call")
    (hp : 0 ≤ riskNeutralProb option rate volatility steps ∧
      riskNeutralProb option rate volatility steps ≤ 1) :
    crrDisc option rate steps *
      (riskNeutralProb option rate volatility steps * crrU option volatility steps +
        (1 - riskNeutralProb option rate volatility steps) * crrD option volatility steps) = 1 ∧
    ∃ v, price_option spot option rate volatility steps = .ok v ∧ v ≤ spot := by
  have hmart := crr_martingale option rate volatility steps hv hov.2.2 hn
  refine ⟨hmart, crrReferencePrice spot option rate volatility steps,
    price_option_ok_of_accepted spot option rate volatility steps hs hv hn hp, ?_⟩
  rw [crrReferencePrice_call spot option rate volatility steps hkind]
  have hbound := crrNodeValue_le_mul_pow (crrDisc option rate steps)
    (riskNeutralProb option rate volatility steps) (crrU option volatility steps)
    (crrD option volatility steps) spot option.strike steps hmart (Real.exp_pos _).le
    hp.1 hp.2 (crrU_pos option volatility steps) (crrD_pos option volatility steps)
    hs.le hov.2.1.le steps 0 0 (by omega) (le_refl 0)
  simpa using hbound

/-- Witness for C9. -/
theorem price_option_call_le_spot_witness :
    (0 : ℝ) < 1 ∧
    ∃ v, price_option 1 ⟨"call", 1, 1⟩ 0 1 1 = .ok v ∧ v ≤ 1 :=
  ⟨one_pos,
    (price_option_call_le_spot 1 ⟨"call", 1, 1⟩ 0 1 1 one_pos one_pos one_ne_zero
      ⟨Or.inl rfl, one_pos, one_pos⟩ rfl witness_p_bounds).2⟩

/-! ### Helper lemmas for the Monte Carlo simulation loops -/

lemma RngState.shift_zero (g : RngState) : g.shift 0 = g := by
  funext k
  simp [RngState.shift]

lemma RngState.shift_shift (g : RngState) (a b : ℕ) :
    (g.shift a).shift b = g.shift (a + b) := by
  funext k
  simp [RngState.shift, Nat.add_assoc]

lemma gbmGrowth_zero (drift diffusion : ℝ) (g : RngState) :
    gbmGrowth drift diffusion g 0 = 1 := by
  simp [gbmGrowth]

lemma gbmGrowth_succ_shift (drift diffusion : ℝ) (g : RngState) (k : ℕ) :
    gbmGrowth drift diffusion g (k + 1) =
      Real.exp (drift + diffusion * g 0) * gbmGrowth drift diffusion (g.shift 1) k := by
  unfold gbmGrowth
  rw [Finset.prod_range_succ', mul_comm]
  congr 1
  apply Finset.prod_congr rfl
  intro i _
  simp [RngState.shift, Nat.add_comm]

lemma simSteps_spec (drift diffusion : ℝ) :
    ∀ (n : ℕ) (price : ℝ) (path : List ℝ) (g : RngState),
      simSteps drift diffusion n price path g =
        (path ++ (List.range n).map (fun t => price * gbmGrowth drift diffusion g (t + 1)),
          g.shift n) := by
  intro n
  induction n with
  | zero =>
      intro price path g
      simp [simSteps, RngState.shift_zero]
  | succ n ih =>
      intro price path g
      show simSteps drift diffusion n (price * Real.exp (drift + diffusion * g 0))
          (path ++ [price * Real.exp (drift + diffusion * g 0)]) (g.shift 1) = _
      rw [ih, List.append_assoc, RngState.shift_shift]
      refine Prod.ext ?_ (by rw [Nat.add_comm])
      show path ++ ([price * Real.exp (drift + diffusion * g 0)] ++
        (List.range n).map (fun t =>
          price * Real.exp (drift + diffusion * g 0) *
            gbmGrowth drift diffusion (g.shift 1) (t + 1))) =
        path ++ (List.range (n + 1)).map (fun t => price * gbmGrowth drift diffusion g (t + 1))
  -- continue below
      congr 1
      rw [List.singleton_append, List.range_succ_eq_map, List.map_cons, List.map_map]
      congr 1
      · rw [gbmGrowth_succ_shift, gbmGrowth_zero, mul_one]
      · apply List.map_congr_left
        intro t _
        show price * Real.exp (drift + diffusion * g 0) *
            gbmGrowth drift diffusion (g.shift 1) (t + 1) =
          price * gbmGrowth drift diffusion g (t + 1 + 1)
        rw [gbmGrowth_succ_shift drift diffusion g (t + 1)]
        ring

lemma specPath_cons (spot drift diffusion : ℝ) (steps : ℕ) (g : RngState) :
    specPath spot drift diffusion steps g =
      spot :: (List.range steps).map (fun t => spot * gbmGrowth drift diffusion g (t + 1)) := by
  unfold specPath
  rw [List.range_succ_eq_map, List.map_cons, List.map_map]
  congr 1
  rw [gbmGrowth_zero, mul_one]

lemma simPaths_spec (spot drift diffusion : ℝ) (steps : ℕ) (payoff : List ℝ → ℝ) :
    ∀ (n : ℕ) (acc : ℝ) (g : RngState),
      simPaths spot drift diffusion steps payoff n acc g =
        (acc + ∑ i ∈ Finset.range n,
          payoff (specPath spot drift diffusion steps (g.shift (i * steps))),
          g.shift (n * steps)) := by
  intro n
  induction n with
  | zero =>
      intro acc g
      simp [simPaths, RngState.shift_zero]
  | succ n ih =>
      intro acc g
      show simPaths spot drift diffusion steps payoff n
          (acc + payoff (simSteps drift diffusion steps spot [spot] g).1)
          (simSteps drift diffusion steps spot [spot] g).2 = _
      rw [simSteps_spec, ih]
      refine Prod.ext ?_ ?_
      · show acc + payoff ([spot] ++ (List.range steps).map
            (fun t => spot * gbmGrowth drift diffusion g (t + 1))) +
          ∑ i ∈ Finset.range n,
            payoff (specPath spot drift diffusion steps ((g.shift steps).shift (i * steps))) =
          acc + ∑ i ∈ Finset.range (n + 1),
            payoff (specPath spot drift diffusion steps (g.shift (i * steps)))
        rw [Finset.sum_range_succ']
        have hpath0 : [spot] ++ (List.range steps).map
            (fun t => spot * gbmGrowth drift diffusion g (t + 1)) =
            specPath spot drift diffusion steps (g.shift (0 * steps)) := by
          rw [Nat.zero_mul, RngState.shift_zero, specPath_cons]
          rfl
        have hshift : ∀ i : ℕ, (g.shift steps).shift (i * steps) = g.shift ((i + 1) * steps) := by
          intro i
          rw [RngState.shift_shift, show steps + i * steps = (i + 1) * steps by ring]
        rw [hpath0]
        have hsum : ∑ i ∈ Finset.range n, payoff (specPath spot drift diffusion steps
            ((g.shift steps).shift (i * steps))) =
            ∑ i ∈ Finset.range n, payoff (specPath spot drift diffusion steps
              (g.shift ((i + 1) * steps))) := by
          apply Finset.sum_congr rfl
          intro i _
          rw [hshift]
        rw [hsum]
        ring
      · show (g.shift steps).shift (n * steps) = g.shift ((n + 1) * steps)
        rw [RngState.shift_shift, show steps + n * steps = (n + 1) * steps by ring]

/-- Successful run of `monte_carlo_price`: on accepted inputs the result is
the estimate computed from the post-seeding draw stream, and the returned
random source is that stream advanced by exactly `paths * steps` draws. -/
lemma monte_carlo_price_ok_of_accepted (seedFn : ℤ → RngState)
    (spot rate volatility maturity : ℝ) (steps paths : ℕ)
    (payoff : List ℝ → ℝ) (seed : Option ℤ) (g : RngState)
    (hs : 0 < spot) (hv : 0 < volatility) (hm : 0 < maturity)
    (hst : steps ≠ 0) (hpa : paths ≠ 0) :
    monte_carlo_price seedFn spot rate volatility maturity steps paths payoff seed g =
      (.ok (mcEstimate spot rate volatility maturity steps paths payoff
          (initStream seedFn seed g)),
        (initStream seedFn seed g).shift (paths * steps)) := by
  unfold monte_carlo_price mcEstimate
  rw [if_neg (not_le.mpr hs), if_neg (not_le.mpr hv), if_neg (not_le.mpr hm),
    if_neg hst, if_neg hpa]
  simp only [simPaths_spec, zero_add]

/-! ### C3: monte_carlo_price matches the reference computation -/

/-- C3: on every accepted input and for every draw stream, the result is the
discounted average of the payoffs of the reference paths, where trial `i`
consumes the draws at positions `i*steps, ..., i*steps + steps - 1` of the
post-seeding stream; every reference path has length `steps + 1` and starts
at `spot`. -/
theorem monte_carlo_price_matches_reference (seedFn : ℤ → RngState)
    (spot rate volatility maturity : ℝ) (steps paths : ℕ)
    (payoff : List ℝ → ℝ) (seed : Option ℤ) (g : RngState)
    (hs : 0 < spot) (hv : 0 < volatility) (hm : 0 < maturity)
    (hst : steps ≠ 0) (hpa : paths ≠ 0) :
    (monte_carlo_price seedFn spot rate volatility maturity steps paths payoff seed g).1 =
      .ok (Real.exp (-(rate * maturity)) *
        ((∑ i ∈ Finset.range paths,
          payoff (specPath spot ((rate - 0.5 * volatility ^ 2) * (maturity / (steps : ℝ)))
            (volatility * Real.sqrt (maturity / (steps : ℝ))) steps
            ((initStream seedFn seed g).shift (i * steps)))) / (paths : ℝ))) ∧
    (∀ z : RngState,
      (specPath spot ((rate - 0.5 * volatility ^ 2) * (maturity / (steps : ℝ)))
        (volatility * Real.sqrt (maturity / (steps : ℝ))) steps z).length = steps + 1 ∧
      (specPath spot ((rate - 0.5 * volatility ^ 2) * (maturity / (steps : ℝ)))
        (volatility * Real.sqrt (maturity / (steps : ℝ))) steps z).headD 0 = spot) := by
  constructor
  · rw [monte_carlo_price_ok_of_accepted seedFn spot rate volatility maturity steps paths
      payoff seed g hs hv hm hst hpa]
    simp only [mcEstimate, simPaths_spec, zero_add]
  · intro z
    constructor
    · simp [specPath]
    · rw [specPath_cons]
      rfl

/-- Witness for C3. -/
theorem monte_carlo_price_matches_reference_witness :
    (0 : ℝ) < 1 ∧
    (specPath 1 ((0 - 0.5 * 1 ^ 2) * (1 / ((1 : ℕ) : ℝ))) (1 * Real.sqrt (1 / ((1 : ℕ) : ℝ)))
      1 (fun _ => 0)).length = 1 + 1 :=
  ⟨one_pos,
    ((monte_carlo_price_matches_reference (fun _ _ => 0) 1 0 1 1 1 1 (fun _ => 0) none
      (fun _ => 0) one_pos one_pos one_pos one_ne_zero one_ne_zero).2 (fun _ => 0)).1⟩

/-! ### C5: fixed-seed reproducibility -/

/-- C5: two calls with identical arguments and the same supplied seed return
identical prices, whatever the prior states of the shared random source: the
seeded stream replaces the prior state before any draw, and draws are
consumed from it in the same fixed sequential order in both runs. -/
theorem monte_carlo_price_seed_reproducible (seedFn : ℤ → RngState)
    (spot rate volatility maturity : ℝ) (steps paths : ℕ) (payoff : List ℝ → ℝ)
    (s : ℤ) (g1 g2 : RngState) :
    (monte_carlo_price seedFn spot rate volatility maturity steps paths payoff (some s) g1).1 =
      (monte_carlo_price seedFn spot rate volatility maturity steps paths payoff (some s) g2).1 := by
  unfold monte_carlo_price
  split_ifs <;> rfl

/-! ### C7: input validation happens first -/

/-- C7: whenever some argument is nonpositive, `monte_carlo_price` fails with
`InvalidInput` naming an offending field, and returns the shared random
source exactly as it was: no seeding and no simulation has taken place, for
any seed and any prior state. -/
theorem monte_carlo_price_invalid_input (seedFn : ℤ → RngState)
    (spot rate volatility maturity : ℝ) (steps paths : ℕ)
    (payoff : List ℝ → ℝ) (seed : Option ℤ) (g : RngState)
    (h : spot ≤ 0 ∨ volatility ≤ 0 ∨ maturity ≤ 0 ∨ steps = 0 ∨ paths = 0) :
    ∃ f, monte_carlo_price seedFn spot rate volatility maturity steps paths payoff seed g =
        (.error (.invalidInput f), g) ∧
      mcFieldOffends f spot volatility maturity steps paths := by
  unfold monte_carlo_price
  by_cases h1 : spot ≤ 0
  · refine ⟨"spot", ?_, Or.inl ⟨rfl, h1⟩⟩
    rw [if_pos h1]
  · rw [if_neg h1]
    by_cases h2 : volatility ≤ 0
    · refine ⟨"volatility", ?_, Or.inr (Or.inl ⟨rfl, h2⟩)⟩
      rw [if_pos h2]
    · rw [if_neg h2]
      by_cases h3 : maturity ≤ 0
      · refine ⟨"maturity", ?_, Or.inr (Or.inr (Or.inl ⟨rfl, h3⟩))⟩
        rw [if_pos h3]
      · rw [if_neg h3]
        by_cases h4 : steps = 0
        · refine ⟨"steps", ?_, Or.inr (Or.inr (Or.inr (Or.inl ⟨rfl, h4⟩)))⟩
          rw [if_pos h4]
        · rw [if_neg h4]
          by_cases h5 : paths = 0
          · refine ⟨"paths", ?_, Or.inr (Or.inr (Or.inr (Or.inr ⟨rfl, h5⟩)))⟩
            rw [if_pos h5]
          · tauto

/-- Witness for C7: a negative spot is rejected with the random source
untouched. -/
theorem monte_carlo_price_invalid_input_witness :
    ((-1 : ℝ) ≤ 0 ∨ (1 : ℝ) ≤ 0 ∨ (1 : ℝ) ≤ 0 ∨ (1 : ℕ) = 0 ∨ (1 : ℕ) = 0) ∧
    ∃ f, monte_carlo_price (fun _ _ => 0) (-1) 0 1 1 1 1 (fun _ => 0) none (fun _ => 0) =
        (.error (.invalidInput f), fun _ => 0) ∧
      mcFieldOffends f (-1) 1 1 1 1 :=
  ⟨Or.inl (by norm_num),
    monte_carlo_price_invalid_input (fun _ _ => 0) (-1) 0 1 1 1 1 (fun _ => 0) none
      (fun _ => 0) (Or.inl (by norm_num))⟩

/-! ### C10: effect on the shared random source -/

/-- C10: on accepted inputs the call consumes exactly `paths * steps`
standard-normal draws from the post-seeding stream and returns the stream so
advanced, which remains visible to subsequent callers; the price is a
function of the post-seeding stream alone — the seeded stream when a seed is
supplied (making the whole call independent of the prior state), and the
pre-existing state when no seed is supplied. -/
theorem monte_carlo_price_frame_effect (seedFn : ℤ → RngState)
    (spot rate volatility maturity : ℝ) (steps paths : ℕ)
    (payoff : List ℝ → ℝ) (seed : Option ℤ) (g : RngState)
    (hs : 0 < spot) (hv : 0 < volatility) (hm : 0 < maturity)
    (hst : steps ≠ 0) (hpa : paths ≠ 0) :
    monte_carlo_price seedFn spot rate volatility maturity steps paths payoff seed g =
      (.ok (mcEstimate spot rate volatility maturity steps paths payoff
          (initStream seedFn seed g)),
        (initStream seedFn seed g).shift (paths * steps)) ∧
    (∀ (s : ℤ) (g2 : RngState), seed = some s →
      monte_carlo_price seedFn spot rate volatility maturity steps paths payoff seed g =
        monte_carlo_price seedFn spot rate volatility maturity steps paths payoff seed g2) := by
  refine ⟨monte_carlo_price_ok_of_accepted seedFn spot rate volatility maturity steps paths
    payoff seed g hs hv hm hst hpa, ?_⟩
  intro s g2 hseed
  subst hseed
  rw [monte_carlo_price_ok_of_accepted seedFn spot rate volatility maturity steps paths
    payoff (some s) g hs hv hm hst hpa,
    monte_carlo_price_ok_of_accepted seedFn spot rate volatility maturity steps paths
    payoff (some s) g2 hs hv hm hst hpa]
  rfl

/-- Witness for C10. -/
theorem monte_carlo_price_frame_effect_witness :
    (0 : ℝ) < 1 ∧
    monte_carlo_price (fun _ _ => 0) 1 0 1 1 1 1 (fun _ => 0) none (fun _ => 0) =
      (.ok (mcEstimate 1 0 1 1 1 1 (fun _ => 0) (initStream (fun _ _ => 0) none (fun _ => 0))),
        (initStream (fun _ _ => 0) none (fun _ => 0)).shift (1 * 1)) :=
  ⟨one_pos,
    (monte_carlo_price_frame_effect (fun _ _ => 0) 1 0 1 1 1 1 (fun _ => 0) none (fun _ => 0)
      one_pos one_pos one_pos one_ne_zero one_ne_zero).1⟩

/-! ### C2: the payoff evaluation environment -/

/-- C2 failing input, evaluating the code there: the accepted expression
`math.exp(0)` contains an attribute access and evaluates successfully (to
`1`) against the path `[100]`, and the name `__builtins__` resolves, to the
empty dict placed in the globals mapping.  The claim — the intended closed
expression language of the specification, which its design notes require a
reimplementation to enforce by abandoning the general-purpose evaluator —
says no attribute access and no name beyond the six documented ones is
reachable; the eval-based code does not enforce that boundary (real eval
resolves further attributes still, such as `S.real`, `path.count` and
dunder chains). -/
theorem payoff_attribute_access_reachable :
    hasAttrAccess (PyExpr.call (.attr (.name "math") "exp") [.lit 0]) = true ∧
    parse_payoff_expression (PyExpr.call (.attr (.name "math") "exp") [.lit 0]) [100] =
      some 1 ∧
    lookupName [(100 : ℝ)] "__builtins__" = some .emptyDict := by
  refine ⟨rfl, ?_, by simp [lookupName]⟩
  have h1 : evalPy [(100 : ℝ)] (PyExpr.call (.attr (.name "math") "exp") [.lit 0]) =
      some (.num (Real.exp 0)) := by
    simp [evalPy, evalArgs, lookupName, attrLookup, applyFn]
  simp [parse_payoff_expression, h1, Real.exp_zero]

end OptionPricing
